import Mathlib

/-!
# Verification of `src/js/old/colors.js`

A shallow embedding of the colour utilities of `colors.js`: the palettes and
the array `colorNames`, the hex colour transforms `brighten` and `darken`, the
formatting helper `l`, and the round-robin cursor `nextPaletteColorName` with
`nextPaletteColor`.

Conventions of the embedding.

* A JavaScript string is a Lean `String`; every character is read as one UTF-16
  code unit (inputs are taken from the Basic Multilingual Plane).
* A JavaScript number that holds an integer is an `Int`; `NaN` and `undefined`
  are `none` of an `Option`.
* `percent` is an integer.  The source evaluates `a + x / 100` in double
  precision and truncates with `0 | _`; for integers `a`, `x` the truncated
  value is the integer quotient `(100 * a + x) / 100` rounded toward zero
  (the quotient `x / 100` is either an integer or at least `1 / 100` away from
  one, far more than the rounding error of a double of this size).
-/

namespace Colors

/-! ## Characters -/

/-- The characters matched by `\s` in a regular expression, which are also the
characters `parseInt` skips at the start of its argument: white space and line
terminators. -/
def isWhiteSpace (c : Char) : Bool :=
  let n := c.toNat
  n = 0x09 || n = 0x0A || n = 0x0B || n = 0x0C || n = 0x0D || n = 0x20 ||
  n = 0xA0 || n = 0x1680 || (0x2000 ≤ n && n ≤ 0x200A) || n = 0x2028 ||
  n = 0x2029 || n = 0x202F || n = 0x205F || n = 0x3000 || n = 0xFEFF

/-- The line terminators, the characters that `.` does not match in a regular
expression. -/
def isLineTerminator (c : Char) : Bool :=
  let n := c.toNat
  n = 0x0A || n = 0x0D || n = 0x2028 || n = 0x2029

/-- Value of a radix-16 digit, `none` for any other character. -/
def hexDigitVal (c : Char) : Option Nat :=
  let n := c.toNat
  if 48 ≤ n ∧ n ≤ 57 then some (n - 48)
  else if 97 ≤ n ∧ n ≤ 102 then some (n - 87)
  else if 65 ≤ n ∧ n ≤ 70 then some (n - 55)
  else none

/-- Whether the character is a hexadecimal digit, of either case. -/
def isHexDigit (c : Char) : Bool := (hexDigitVal c).isSome

/-! ## String primitives -/

/-- `s.replace(/^\s*#|\s*$/g, '')`: the first alternative matches only at the
start of the string, a run of white space followed by `#`; the second matches
the run of white space that ends the string.  White space at the start is
removed only when a `#` follows it. -/
def stripHash (s : List Char) : List Char :=
  let rest := match s.dropWhile isWhiteSpace with
    | '#' :: t => t
    | _ => s
  (rest.reverse.dropWhile isWhiteSpace).reverse

/-- `s.replace(/(.)/g, '$1$1')`: every character that `.` matches is written
twice; a line terminator is not matched and stays as it is. -/
def doubleChars : List Char → List Char
  | [] => []
  | c :: t => if isLineTerminator c then c :: doubleChars t else c :: c :: doubleChars t

/-- `s.substr(start, len)` for non-negative `start` and `len`. -/
def substr (s : List Char) (start len : Nat) : List Char := (s.drop start).take len

/-- Integer denoted by a string of radix-16 digits, most significant first. -/
def hexValue (z : List Char) : Nat :=
  z.foldl (fun acc c => 16 * acc + (hexDigitVal c).getD 0) 0

/-- The sign read by `parseInt`: `-1` when the string starts with `-`. -/
def signOf (s : List Char) : Int :=
  match s with
  | '-' :: _ => -1
  | _ => 1

/-- The string without the sign character `parseInt` has read. -/
def dropSign (s : List Char) : List Char :=
  match s with
  | '-' :: t => t
  | '+' :: t => t
  | _ => s

/-- The string without the `0x` or `0X` that `parseInt` skips for radix 16. -/
def dropRadixPrefix (s : List Char) : List Char :=
  match s with
  | '0' :: 'x' :: t => t
  | '0' :: 'X' :: t => t
  | _ => s

/-- `parseInt(s, 16)`: skip leading white space, read a sign, skip a `0x` or
`0X` prefix, then read the longest run of hexadecimal digits; `none` is `NaN`,
returned when that run is empty. -/
def parseInt16 (s : List Char) : Option Int :=
  let s := s.dropWhile isWhiteSpace
  let sign := signOf s
  let s := dropRadixPrefix (dropSign s)
  let z := s.takeWhile isHexDigit
  if z.isEmpty then none else some (sign * (hexValue z : Int))

/-- `ToInt32`: the integer is reduced modulo `2 ^ 32` into the signed range. -/
def toInt32 (n : Int) : Int := (n + 2147483648) % 4294967296 - 2147483648

/-- `0 | (a + x / 100)` for integers `a` and `x`: the sum is truncated toward
zero and converted with `ToInt32`. -/
def truncSum (a x : Int) : Int := toInt32 (Int.tdiv (100 * a + x) 100)

/-- `n.toString(16)` for an integer `n`: lowercase digits without padding,
preceded by `-` when `n` is negative. -/
def toString16 (n : Int) : List Char :=
  if n < 0 then '-' :: Nat.toDigits 16 n.natAbs else Nat.toDigits 16 n.natAbs

/-! ## The colour transforms -/

/-- One channel of `brighten`:
`((0|(1<<8) + c + (256 - c) * percent / 100).toString(16)).substr(1)`.
When `c` is `NaN` the sum is `NaN` and `0 | NaN` is `0`. -/
def brightenChannel (c : Option Int) (percent : Int) : List Char :=
  match c with
  | none => (toString16 0).drop 1
  | some c => (toString16 (truncSum (256 + c) ((256 - c) * percent))).drop 1

/-- One channel of `darken`:
`((0|(1<<8) + c * (100 - percent) / 100).toString(16)).substr(1)`. -/
def darkenChannel (c : Option Int) (percent : Int) : List Char :=
  match c with
  | none => (toString16 0).drop 1
  | some c => (toString16 (truncSum 256 (c * (100 - percent)))).drop 1

/-- The first lines shared by `brighten` and `darken`: strip the leading `#`,
then turn a three character code into a six character one. -/
def normalizeHex (hex : String) : List Char :=
  let hex := stripHash hex.data
  if hex.length = 3 then doubleChars hex else hex

/-- The function `brighten(hex, percent)` of `colors.js`. -/
def brighten (hex : String) (percent : Int) : String :=
  let hex := normalizeHex hex
  let r := parseInt16 (substr hex 0 2)
  let g := parseInt16 (substr hex 2 2)
  let b := parseInt16 (substr hex 4 2)
  String.mk ('#' :: (brightenChannel r percent ++ brightenChannel g percent
    ++ brightenChannel b percent))

/-- The function `darken(hex, percent)` of `colors.js`. -/
def darken (hex : String) (percent : Int) : String :=
  let hex := normalizeHex hex
  let r := parseInt16 (substr hex 0 2)
  let g := parseInt16 (substr hex 2 2)
  let b := parseInt16 (substr hex 4 2)
  String.mk ('#' :: (darkenChannel r percent ++ darkenChannel g percent
    ++ darkenChannel b percent))

/-! ## The palette cursor -/

/-- The property `nextPaletteColorName.counter`: `undefined` until the first
call, afterwards a number, `NaN` included. -/
inductive Counter where
  | undefined : Counter
  | nan : Counter
  | num (n : Nat) : Counter
  deriving DecidableEq, Repr

/-- `counter || 0`: `undefined`, `NaN` and `0` are falsy and give `0`. -/
def Counter.orZero : Counter → Nat
  | Counter.undefined => 0
  | Counter.nan => 0
  | Counter.num n => n

/-- `(c + 1) % length`: `NaN` when `length` is `0`. -/
def incrementOrReset (c length : Nat) : Counter :=
  if length = 0 then Counter.nan else Counter.num ((c + 1) % length)

/-- The function `nextPaletteColorName()` of `colors.js`, with the global array
`colorNames` and the counter passed explicitly.  It returns the name read,
`none` for `undefined`, and the new counter. -/
def nextPaletteColorName (colorNames : List String) (counter : Counter) :
    Option String × Counter :=
  let counter := counter.orZero
  let colorName := colorNames[counter]?
  (colorName, incrementOrReset counter colorNames.length)

/-- The counter after `k` calls of `nextPaletteColorName`, starting from the
initial state in which the counter is `undefined`. -/
def counterAfter (colorNames : List String) : Nat → Counter
  | 0 => Counter.undefined
  | k + 1 => (nextPaletteColorName colorNames (counterAfter colorNames k)).2

/-- The value returned by call number `k`, counting from `0`, of a run of calls
that starts from the initial state. -/
def nthCall (colorNames : List String) (k : Nat) : Option String :=
  (nextPaletteColorName colorNames (counterAfter colorNames k)).1

/-! ## The palettes -/

/-- An object literal with string values whose keys are distinct and are not
array indices: its own enumerable properties in the order in which they are
written, which is the order in which `for ... in` visits them. -/
abbrev JsObject := List (String × String)

/-- The object literal `solarized`. -/
def solarized : JsObject :=
  [("background", "#002b36"), ("background2", "#073642"), ("base01", "#586e75"),
   ("base00", "#657b83"), ("base0", "#839496"), ("base1", "#93a1a1"),
   ("base2", "#eee8d5"), ("base3", "#fdf6e3"), ("yellow", "#b58900"),
   ("orange", "#cb4b16"), ("red", "#dc322f"), ("magenta", "#d33682"),
   ("violet", "#6c71c4"), ("blue", "#268bd2"), ("cyan", "#2aa198"),
   ("green", "#859900")]

/-- The object literal `zenburn`. -/
def zenburn : JsObject :=
  [("background", "#000010"), ("foreground", "#ffffff"), ("color0", "#000000"),
   ("color1", "#9e1828"), ("color2", "#aece92"), ("color3", "#968a38"),
   ("color4", "#414171"), ("color5", "#963c59"), ("color6", "#418179"),
   ("color7", "#bebebe"), ("color8", "#666666"), ("color9", "#cf6171"),
   ("color10", "#c5f779"), ("color11", "#fff796"), ("color12", "#4186be"),
   ("color13", "#cf9ebe"), ("color14", "#71bebe"), ("color15", "#ffffff")]

/-- The global `palette`, set to `solarized`. -/
def palette : JsObject := solarized

/-- `obj.hasOwnProperty(key)`. -/
def hasOwnProperty (obj : JsObject) (key : String) : Bool :=
  obj.any (fun kv => kv.1 == key)

/-- The loop that fills `colorNames`: every key visited by `for ... in` that is
an own property is pushed at the end of `result`. -/
def collectNames (obj : JsObject) : List String :=
  obj.foldl (fun result kv => if hasOwnProperty obj kv.1 then result ++ [kv.1] else result) []

/-- The global `colorNames`, computed once from `palette`. -/
def colorNames : List String := collectNames palette

/-- `obj[key]` for a key that is a string or `undefined`, the latter being
converted to the string `undefined`; the result `none` is `undefined`.  Only the
own properties of the object are looked up. -/
def getProperty (obj : JsObject) (key : Option String) : Option String :=
  (obj.find? (fun kv => kv.1 == key.getD "undefined")).map Prod.snd

/-- The function `nextPaletteColor()` of `colors.js`, with the counter passed
explicitly: `palette[nextPaletteColorName()]`. -/
def nextPaletteColor (counter : Counter) : Option String × Counter :=
  let r := nextPaletteColorName colorNames counter
  (getProperty palette r.1, r.2)

/-- The function `l(r, g, b)` of `colors.js` on integer arguments, without its
three calls of `console.log`: each component is
`((0|(1<<8) + c).toString(16)).substr(1)`. -/
def l (r g b : Int) : String :=
  String.mk ('#' :: ((toString16 (toInt32 (256 + r))).drop 1
    ++ (toString16 (toInt32 (256 + g))).drop 1
    ++ (toString16 (toInt32 (256 + b))).drop 1))

/-! ## Vocabulary of the specification -/

/-- A hex colour written with the digits `ds`, with a leading `#` when `hash`
is set. -/
def hexString (hash : Bool) (ds : List Char) : String :=
  String.mk (if hash then '#' :: ds else ds)

/-- The digits `ds` are all hexadecimal digits. -/
def allHex (ds : List Char) : Bool := ds.all isHexDigit

/-- Value of the channel written with the two hexadecimal digits `d1 d2`. -/
def channel (d1 d2 : Char) : Nat :=
  16 * (hexDigitVal d1).getD 0 + (hexDigitVal d2).getD 0

/-- Zero-padded two digit lowercase hexadecimal rendering of `n`. -/
def hex2 (n : Nat) : List Char := [Nat.digitChar (n / 16), Nat.digitChar (n % 16)]

/-- The colour string `#rrggbb` of three channel values. -/
def rgbString (r g b : Nat) : String := String.mk ('#' :: (hex2 r ++ hex2 g ++ hex2 b))

/-- The brightening rule as the specification words it, interpolation toward
`255`: the channel `c` becomes `trunc (c + (255 - c) * percent / 100)`. -/
def specBrightenChannel (c : Nat) (percent : Int) : Nat :=
  (Int.tdiv (100 * (c : Int) + (255 - (c : Int)) * percent) 100).toNat

/-- A channel value clamped to the byte range `[0, 255]`. -/
def clampByte (v : Int) : Nat := (max 0 (min 255 v)).toNat

/-- The sixteen lowercase hexadecimal digits. -/
def lowerHexDigits : List Char := "0123456789abcdef".data

/-- The string is `#` followed by six hexadecimal digits. -/
def isRRGGBB (s : String) : Bool :=
  match s.data with
  | '#' :: ds => ds.length = 6 && allHex ds
  | _ => false

/-- The twenty-two hexadecimal digits. -/
def hexDigits : List Char := "0123456789abcdefABCDEF".data

/-! ## Lemmas on characters and digits -/

theorem isHexDigit_range {c : Char} (h : isHexDigit c = true) :
    (48 ≤ c.toNat ∧ c.toNat ≤ 57) ∨ (97 ≤ c.toNat ∧ c.toNat ≤ 102) ∨
      (65 ≤ c.toNat ∧ c.toNat ≤ 70) := by
  unfold isHexDigit hexDigitVal at h
  by_cases h1 : 48 ≤ c.toNat ∧ c.toNat ≤ 57
  · exact Or.inl h1
  · by_cases h2 : 97 ≤ c.toNat ∧ c.toNat ≤ 102
    · exact Or.inr (Or.inl h2)
    · by_cases h3 : 65 ≤ c.toNat ∧ c.toNat ≤ 70
      · exact Or.inr (Or.inr h3)
      · simp [h1, h2, h3] at h

theorem mem_hexDigits {c : Char} (h : isHexDigit c = true) : c ∈ hexDigits := by
  have hr := isHexDigit_range h
  have hc : c = Char.ofNat c.toNat := (Char.ofNat_toNat c).symm
  generalize c.toNat = n at hr hc
  subst hc
  rcases hr with ⟨h1, h2⟩ | ⟨h1, h2⟩ | ⟨h1, h2⟩ <;> interval_cases n <;> decide

set_option maxRecDepth 1000000 in
theorem parseInt16_pair_all :
    ∀ d1 ∈ hexDigits, ∀ d2 ∈ hexDigits,
      parseInt16 [d1, d2] = some ((channel d1 d2 : Nat) : Int) := by
  decide

theorem parseInt16_pair {d1 d2 : Char} (h1 : isHexDigit d1 = true)
    (h2 : isHexDigit d2 = true) :
    parseInt16 [d1, d2] = some ((channel d1 d2 : Nat) : Int) :=
  parseInt16_pair_all d1 (mem_hexDigits h1) d2 (mem_hexDigits h2)

set_option maxRecDepth 1000000 in
theorem channel_lt_all : ∀ d1 ∈ hexDigits, ∀ d2 ∈ hexDigits, channel d1 d2 < 256 := by
  decide

theorem channel_lt {d1 d2 : Char} (h1 : isHexDigit d1 = true) (h2 : isHexDigit d2 = true) :
    channel d1 d2 < 256 :=
  channel_lt_all d1 (mem_hexDigits h1) d2 (mem_hexDigits h2)

set_option maxRecDepth 1000000 in
theorem toDigits_256_add : ∀ m < 256, Nat.toDigits 16 (256 + m) = '1' :: hex2 m := by
  decide

theorem hexDigits_plain :
    ∀ c ∈ hexDigits, isWhiteSpace c = false ∧ isLineTerminator c = false ∧ c ≠ '#' := by
  decide

theorem isWhiteSpace_of_hex {c : Char} (h : isHexDigit c = true) : isWhiteSpace c = false :=
  (hexDigits_plain c (mem_hexDigits h)).1

theorem isLineTerminator_of_hex {c : Char} (h : isHexDigit c = true) :
    isLineTerminator c = false :=
  (hexDigits_plain c (mem_hexDigits h)).2.1

theorem ne_hash_of_hex {c : Char} (h : isHexDigit c = true) : c ≠ '#' :=
  (hexDigits_plain c (mem_hexDigits h)).2.2

theorem hash_not_space : isWhiteSpace '#' = false := by decide

/-- A string that starts and ends with a hexadecimal digit is left as it is by
`stripHash`; with a `#` in front, the `#` is removed. -/
theorem stripHash_hexString (hash : Bool) (a z : Char) (mid : List Char)
    (ha : isHexDigit a = true) (hz : isHexDigit z = true) :
    stripHash (hexString hash (a :: (mid ++ [z]))).data = a :: (mid ++ [z]) := by
  have hwa := isWhiteSpace_of_hex ha
  have hwz := isWhiteSpace_of_hex hz
  have hna := ne_hash_of_hex ha
  have hrev : ∀ l : List Char,
      ((l ++ [z]).reverse.dropWhile isWhiteSpace).reverse = l ++ [z] := by
    intro l
    simp [List.dropWhile, hwz]
  have hrev2 : ((a :: (mid ++ [z])).reverse.dropWhile isWhiteSpace).reverse
      = a :: (mid ++ [z]) := by
    have := hrev (a :: mid)
    simpa using this
  cases hash
  · simp only [hexString, stripHash, Bool.false_eq_true, if_false, List.dropWhile, hwa]
    split
    · rename_i t heq
      simp only [List.cons.injEq] at heq
      exact absurd heq.1 hna
    · exact hrev2
  · simp only [hexString, stripHash, if_true, List.dropWhile, hash_not_space]
    exact hrev2

theorem normalizeHex_six (hash : Bool) (d1 d2 d3 d4 d5 d6 : Char)
    (h : allHex [d1, d2, d3, d4, d5, d6] = true) :
    normalizeHex (hexString hash [d1, d2, d3, d4, d5, d6]) = [d1, d2, d3, d4, d5, d6] := by
  simp only [allHex, List.all_cons, List.all_nil, Bool.and_true, Bool.and_eq_true] at h
  have := stripHash_hexString hash d1 d6 [d2, d3, d4, d5] h.1 h.2.2.2.2.2
  simp only [List.cons_append, List.nil_append] at this
  simp [normalizeHex, this]

theorem normalizeHex_three (hash : Bool) (d1 d2 d3 : Char)
    (h : allHex [d1, d2, d3] = true) :
    normalizeHex (hexString hash [d1, d2, d3]) = [d1, d1, d2, d2, d3, d3] := by
  simp only [allHex, List.all_cons, List.all_nil, Bool.and_true, Bool.and_eq_true] at h
  have := stripHash_hexString hash d1 d3 [d2] h.1 h.2.2
  simp only [List.cons_append, List.nil_append] at this
  simp [normalizeHex, this, doubleChars, isLineTerminator_of_hex h.1,
    isLineTerminator_of_hex h.2.1, isLineTerminator_of_hex h.2.2]

/-! ## Lemmas on the channel arithmetic -/

/-- The formatting trick on a byte: the rendering of `256 + v` without its first
character is the two digit rendering of `v`. -/
theorem render_byte (v : Int) (h0 : 0 ≤ v) (h1 : v < 256) :
    (toString16 (toInt32 (256 + v))).drop 1 = hex2 v.toNat := by
  have h32 : toInt32 (256 + v) = 256 + v := by
    unfold toInt32
    omega
  have hn : ¬ (256 + v < 0) := by omega
  have habs : (256 + v).natAbs = 256 + v.toNat := by omega
  have hlt : v.toNat < 256 := by omega
  rw [h32, toString16, if_neg hn, habs, toDigits_256_add _ hlt]
  rfl

theorem truncSum_nonneg (a x : Int) (ha : 0 ≤ a) (hx : 0 ≤ x) :
    truncSum a x = toInt32 (a + x / 100) := by
  unfold truncSum
  rw [Int.tdiv_eq_ediv (by omega) (by omega)]
  congr 1
  omega

theorem darkenChannel_byte (c : Nat) (p : Int) (hc : c < 256) (h0 : 0 ≤ p) (h1 : p ≤ 100) :
    darkenChannel (some (c : Int)) p = hex2 ((c : Int) * (100 - p) / 100).toNat := by
  have hx0 : 0 ≤ (c : Int) * (100 - p) := mul_nonneg (by omega) (by omega)
  have hx1 : (c : Int) * (100 - p) ≤ 255 * 100 :=
    mul_le_mul (by omega) (by omega) (by omega) (by omega)
  simp only [darkenChannel]
  rw [truncSum_nonneg 256 _ (by omega) hx0]
  generalize (c : Int) * (100 - p) = x at hx0 hx1
  exact render_byte (x / 100) (by omega) (by omega)

theorem brightenChannel_byte (c : Nat) (p : Int) (hc : c < 256) (h0 : 0 ≤ p) (h1 : p < 100) :
    brightenChannel (some (c : Int)) p
      = hex2 ((c : Int) + (256 - (c : Int)) * p / 100).toNat := by
  have hx0 : 0 ≤ (256 - (c : Int)) * p := mul_nonneg (by omega) (by omega)
  have hx1 : (256 - (c : Int)) * p ≤ (256 - (c : Int)) * 99 :=
    mul_le_mul_of_nonneg_left (by omega) (by omega)
  simp only [brightenChannel]
  rw [truncSum_nonneg _ _ (by omega) hx0]
  generalize (256 - (c : Int)) * p = x at hx0 hx1
  have : (256 : Int) + (c : Int) + x / 100 = 256 + ((c : Int) + x / 100) := by ring
  rw [this]
  exact render_byte _ (by omega) (by omega)

theorem hex2_channel_all :
    ∀ d1 ∈ hexDigits, ∀ d2 ∈ hexDigits, hex2 (channel d1 d2) = [d1.toLower, d2.toLower] := by
  decide

theorem hex2_channel {d1 d2 : Char} (h1 : isHexDigit d1 = true) (h2 : isHexDigit d2 = true) :
    hex2 (channel d1 d2) = [d1.toLower, d2.toLower] :=
  hex2_channel_all d1 (mem_hexDigits h1) d2 (mem_hexDigits h2)

/-! ## The transforms on a well-formed colour -/

theorem brighten_six (hash : Bool) (d1 d2 d3 d4 d5 d6 : Char) (p : Int)
    (h : allHex [d1, d2, d3, d4, d5, d6] = true) :
    brighten (hexString hash [d1, d2, d3, d4, d5, d6]) p
      = String.mk ('#' :: (brightenChannel (some (channel d1 d2 : Nat)) p
          ++ brightenChannel (some (channel d3 d4 : Nat)) p
          ++ brightenChannel (some (channel d5 d6 : Nat)) p)) := by
  have hn := normalizeHex_six hash d1 d2 d3 d4 d5 d6 h
  simp only [allHex, List.all_cons, List.all_nil, Bool.and_true, Bool.and_eq_true] at h
  obtain ⟨h1, h2, h3, h4, h5, h6⟩ := h
  simp only [brighten, hn, substr, List.drop, List.take]
  rw [parseInt16_pair h1 h2, parseInt16_pair h3 h4, parseInt16_pair h5 h6]

theorem darken_six (hash : Bool) (d1 d2 d3 d4 d5 d6 : Char) (p : Int)
    (h : allHex [d1, d2, d3, d4, d5, d6] = true) :
    darken (hexString hash [d1, d2, d3, d4, d5, d6]) p
      = String.mk ('#' :: (darkenChannel (some (channel d1 d2 : Nat)) p
          ++ darkenChannel (some (channel d3 d4 : Nat)) p
          ++ darkenChannel (some (channel d5 d6 : Nat)) p)) := by
  have hn := normalizeHex_six hash d1 d2 d3 d4 d5 d6 h
  simp only [allHex, List.all_cons, List.all_nil, Bool.and_true, Bool.and_eq_true] at h
  obtain ⟨h1, h2, h3, h4, h5, h6⟩ := h
  simp only [darken, hn, substr, List.drop, List.take]
  rw [parseInt16_pair h1 h2, parseInt16_pair h3 h4, parseInt16_pair h5 h6]

theorem allHex_double {d1 d2 d3 : Char} (h : allHex [d1, d2, d3] = true) :
    allHex [d1, d1, d2, d2, d3, d3] = true := by
  simp only [allHex, List.all_cons, List.all_nil, Bool.and_true, Bool.and_eq_true] at h ⊢
  tauto

theorem normalizeHex_three_six (hash hash6 : Bool) (d1 d2 d3 : Char)
    (h : allHex [d1, d2, d3] = true) :
    normalizeHex (hexString hash [d1, d2, d3])
      = normalizeHex (hexString hash6 [d1, d1, d2, d2, d3, d3]) := by
  rw [normalizeHex_three hash d1 d2 d3 h, normalizeHex_six hash6 _ _ _ _ _ _ (allHex_double h)]

/-- The channels of `brighten` on a six digit colour, for `0 ≤ p < 100`. -/
theorem brighten_six_values (hash : Bool) (d1 d2 d3 d4 d5 d6 : Char) (p : Int)
    (hd : allHex [d1, d2, d3, d4, d5, d6] = true) (h0 : 0 ≤ p) (h1 : p < 100) :
    brighten (hexString hash [d1, d2, d3, d4, d5, d6]) p
      = rgbString
          ((channel d1 d2 : Int) + (256 - (channel d1 d2 : Int)) * p / 100).toNat
          ((channel d3 d4 : Int) + (256 - (channel d3 d4 : Int)) * p / 100).toNat
          ((channel d5 d6 : Int) + (256 - (channel d5 d6 : Int)) * p / 100).toNat := by
  rw [brighten_six hash d1 d2 d3 d4 d5 d6 p hd]
  simp only [allHex, List.all_cons, List.all_nil, Bool.and_true, Bool.and_eq_true] at hd
  obtain ⟨g1, g2, g3, g4, g5, g6⟩ := hd
  rw [brightenChannel_byte _ p (channel_lt g1 g2) h0 h1,
    brightenChannel_byte _ p (channel_lt g3 g4) h0 h1,
    brightenChannel_byte _ p (channel_lt g5 g6) h0 h1]
  rfl

/-- The channels of `darken` on a six digit colour, for `0 ≤ p ≤ 100`. -/
theorem darken_six_values (hash : Bool) (d1 d2 d3 d4 d5 d6 : Char) (p : Int)
    (hd : allHex [d1, d2, d3, d4, d5, d6] = true) (h0 : 0 ≤ p) (h1 : p ≤ 100) :
    darken (hexString hash [d1, d2, d3, d4, d5, d6]) p
      = rgbString
          ((channel d1 d2 : Int) * (100 - p) / 100).toNat
          ((channel d3 d4 : Int) * (100 - p) / 100).toNat
          ((channel d5 d6 : Int) * (100 - p) / 100).toNat := by
  rw [darken_six hash d1 d2 d3 d4 d5 d6 p hd]
  simp only [allHex, List.all_cons, List.all_nil, Bool.and_true, Bool.and_eq_true] at hd
  obtain ⟨g1, g2, g3, g4, g5, g6⟩ := hd
  rw [darkenChannel_byte _ p (channel_lt g1 g2) h0 h1,
    darkenChannel_byte _ p (channel_lt g3 g4) h0 h1,
    darkenChannel_byte _ p (channel_lt g5 g6) h0 h1]
  rfl

/-! ## Claims on `brighten` and `darken` -/

/-- Claim C1, evaluated on the source.  `brighten` at `100` percent does not give
white: the channel sum `256 + c + (256 - c)` is `512`, rendered `200`, and
dropping the first character leaves `00`, so white, a six digit colour and a
three digit colour all come out as `#000000`. -/
theorem brighten_100_is_black :
    brighten "#ffffff" 100 = "#000000" ∧ brighten "#123456" 100 = "#000000" ∧
      brighten "0f0" 100 = "#000000" := by
  decide

/-- Claim C2 as worded fails.  With black and `50` percent the source gives
`#808080`, while interpolation toward `255` gives `127`, that is `#7f7f7f`. -/
theorem brighten_not_toward_255 :
    brighten "#000000" 50 = "#808080" ∧
      rgbString (specBrightenChannel 0 50) (specBrightenChannel 0 50)
        (specBrightenChannel 0 50) = "#7f7f7f" ∧
      brighten "#000000" 50 ≠ rgbString (specBrightenChannel 0 50)
        (specBrightenChannel 0 50) (specBrightenChannel 0 50) := by
  decide

/-- Claim C2, amended.  For a six digit hex colour with channels `r`, `g`, `b`
and an integer percent with `0 ≤ percent < 100`, each channel `c` of the result
of `brighten` is the two digit hex of `c + (256 - c) * percent / 100` rounded
down: interpolation toward `256`, truncated. -/
theorem brighten_channels (hash : Bool) (d1 d2 d3 d4 d5 d6 : Char) (percent : Int)
    (hd : allHex [d1, d2, d3, d4, d5, d6] = true) (h0 : 0 ≤ percent) (h1 : percent < 100) :
    brighten (hexString hash [d1, d2, d3, d4, d5, d6]) percent
      = rgbString
          ((channel d1 d2 : Int) + (256 - (channel d1 d2 : Int)) * percent / 100).toNat
          ((channel d3 d4 : Int) + (256 - (channel d3 d4 : Int)) * percent / 100).toNat
          ((channel d5 d6 : Int) + (256 - (channel d5 d6 : Int)) * percent / 100).toNat := by
  exact brighten_six_values hash d1 d2 d3 d4 d5 d6 percent hd h0 h1

/-- Witness of `brighten_channels`: `#1A2b3C` brightened by `25` percent. -/
theorem brighten_channels_witness :
    allHex ['1', 'A', '2', 'b', '3', 'C'] = true ∧
      brighten "#1A2b3C" 25 = rgbString 83 96 109 ∧ rgbString 83 96 109 = "#53606d" :=
  ⟨by decide, brighten_channels true '1' 'A' '2' 'b' '3' 'C' 25 (by decide) (by decide)
    (by decide), by decide⟩

/-- Claim C3.  For a six digit hex colour with channels `r`, `g`, `b` and an
integer percent in `[0, 100]`, `darken` returns `#` followed by the zero-padded
two digit lowercase hex of `floor (c * (100 - percent) / 100)` for `c = r, g, b`
in that order. -/
theorem darken_channels (hash : Bool) (d1 d2 d3 d4 d5 d6 : Char) (percent : Int)
    (hd : allHex [d1, d2, d3, d4, d5, d6] = true) (h0 : 0 ≤ percent) (h1 : percent ≤ 100) :
    darken (hexString hash [d1, d2, d3, d4, d5, d6]) percent
      = rgbString
          ((channel d1 d2 : Int) * (100 - percent) / 100).toNat
          ((channel d3 d4 : Int) * (100 - percent) / 100).toNat
          ((channel d5 d6 : Int) * (100 - percent) / 100).toNat := by
  exact darken_six_values hash d1 d2 d3 d4 d5 d6 percent hd h0 h1

/-- Witness of `darken_channels`, the example of the claim:
`darken("#ffffff", 50)` is `#7f7f7f`, each channel being `255 * 50 / 100 = 127`. -/
theorem darken_channels_witness :
    allHex ['f', 'f', 'f', 'f', 'f', 'f'] = true ∧
      darken "#ffffff" 50 = rgbString 127 127 127 ∧ rgbString 127 127 127 = "#7f7f7f" :=
  ⟨by decide, darken_channels true 'f' 'f' 'f' 'f' 'f' 'f' 50 (by decide) (by decide)
    (by decide), by decide⟩

/-- Claim C4.  For a six digit hex colour `h`, with or without the leading `#`
and with digits of either case, `brighten(h, 0)` and `darken(h, 0)` are equal to
each other and to `#` followed by the six digits of `h` in lowercase. -/
theorem zero_percent_identity (hash : Bool) (d1 d2 d3 d4 d5 d6 : Char)
    (hd : allHex [d1, d2, d3, d4, d5, d6] = true) :
    brighten (hexString hash [d1, d2, d3, d4, d5, d6]) 0
        = darken (hexString hash [d1, d2, d3, d4, d5, d6]) 0 ∧
      darken (hexString hash [d1, d2, d3, d4, d5, d6]) 0
        = String.mk ('#' :: [d1, d2, d3, d4, d5, d6].map Char.toLower) := by
  have hb := brighten_six_values hash d1 d2 d3 d4 d5 d6 0 hd (by decide) (by decide)
  have hk := darken_six_values hash d1 d2 d3 d4 d5 d6 0 hd (by decide) (by decide)
  simp only [allHex, List.all_cons, List.all_nil, Bool.and_true, Bool.and_eq_true] at hd
  obtain ⟨g1, g2, g3, g4, g5, g6⟩ := hd
  have e1 : ∀ c : Nat, ((c : Int) + (256 - (c : Int)) * 0 / 100).toNat = c := by
    intro c; simp
  have e2 : ∀ c : Nat, ((c : Int) * (100 - 0) / 100).toNat = c := by
    intro c
    have : (c : Int) * (100 - 0) / 100 = c := by omega
    rw [this]; simp
  simp only [e1] at hb
  simp only [e2] at hk
  refine ⟨hb.trans hk.symm, ?_⟩
  rw [hk]
  simp only [rgbString, hex2_channel g1 g2, hex2_channel g3 g4, hex2_channel g5 g6]
  rfl

/-- Witness of `zero_percent_identity`: `#AbCdEf` at `0` percent. -/
theorem zero_percent_identity_witness :
    allHex ['A', 'b', 'C', 'd', 'E', 'f'] = true ∧
      brighten "#AbCdEf" 0 = darken "#AbCdEf" 0 ∧ darken "#AbCdEf" 0 = "#abcdef" :=
  ⟨by decide, zero_percent_identity true 'A' 'b' 'C' 'd' 'E' 'f' (by decide)⟩

theorem brighten_three (hash hash6 : Bool) (d1 d2 d3 : Char) (p : Int)
    (h : allHex [d1, d2, d3] = true) :
    brighten (hexString hash [d1, d2, d3]) p
      = brighten (hexString hash6 [d1, d1, d2, d2, d3, d3]) p := by
  simp only [brighten, normalizeHex_three_six hash hash6 d1 d2 d3 h]

theorem darken_three (hash hash6 : Bool) (d1 d2 d3 : Char) (p : Int)
    (h : allHex [d1, d2, d3] = true) :
    darken (hexString hash [d1, d2, d3]) p
      = darken (hexString hash6 [d1, d1, d2, d2, d3, d3]) p := by
  simp only [darken, normalizeHex_three_six hash hash6 d1 d2 d3 h]

/-- Claim C5.  For every hex colour of three or six hexadecimal digits, with or
without the leading `#`, `darken` at `100` percent returns `#000000`. -/
theorem darken_100_is_black (hash : Bool) (ds : List Char)
    (hlen : ds.length = 3 ∨ ds.length = 6) (hd : allHex ds = true) :
    darken (hexString hash ds) 100 = "#000000" := by
  have six : ∀ (e1 e2 e3 e4 e5 e6 : Char), allHex [e1, e2, e3, e4, e5, e6] = true →
      darken (hexString hash [e1, e2, e3, e4, e5, e6]) 100 = "#000000" := by
    intro e1 e2 e3 e4 e5 e6 he
    rw [darken_six_values hash e1 e2 e3 e4 e5 e6 100 he (by decide) (by decide)]
    simp only [sub_self, mul_zero, Int.zero_ediv, Int.toNat_zero]
    decide
  rcases hlen with h3 | h6
  · match ds, h3 with
    | [e1, e2, e3], _ =>
      rw [darken_three hash hash e1 e2 e3 100 hd]
      exact six _ _ _ _ _ _ (allHex_double hd)
  · match ds, h6 with
    | [e1, e2, e3, e4, e5, e6], _ => exact six _ _ _ _ _ _ hd

/-- Witness of `darken_100_is_black`: the three digit colour `#E0F` and the six
digit colour `268bd2`. -/
theorem darken_100_is_black_witness :
    darken "#E0F" 100 = "#000000" ∧ darken "268bd2" 100 = "#000000" :=
  ⟨darken_100_is_black true ['E', '0', 'F'] (Or.inl (by decide)) (by decide),
    darken_100_is_black false ['2', '6', '8', 'b', 'd', '2'] (Or.inr (by decide)) (by decide)⟩

/-- Claim C6.  For every three digit hex colour `d1 d2 d3`, with or without the
leading `#`, and every percent, `brighten` and `darken` return the same result
on it as on the six digit colour `d1 d1 d2 d2 d3 d3`, itself with or without
the leading `#`. -/
theorem three_digit_expansion (hash hash6 : Bool) (d1 d2 d3 : Char) (percent : Int)
    (hd : allHex [d1, d2, d3] = true) :
    brighten (hexString hash [d1, d2, d3]) percent
        = brighten (hexString hash6 [d1, d1, d2, d2, d3, d3]) percent ∧
      darken (hexString hash [d1, d2, d3]) percent
        = darken (hexString hash6 [d1, d1, d2, d2, d3, d3]) percent :=
  ⟨brighten_three hash hash6 d1 d2 d3 percent hd, darken_three hash hash6 d1 d2 d3 percent hd⟩

/-- Witness of `three_digit_expansion`, the example of the claim: `#0f0` against
`#00ff00`, at `37` percent. -/
theorem three_digit_expansion_witness :
    allHex ['0', 'f', '0'] = true ∧
      brighten "#0f0" 37 = brighten "#00ff00" 37 ∧ darken "#0f0" 37 = darken "#00ff00" 37 :=
  ⟨by decide, three_digit_expansion true true '0' 'f' '0' 37 (by decide)⟩

/-! ## Malformed input -/

theorem takeWhile_noHex (s : List Char) (h : ∀ c ∈ s, isHexDigit c = false) :
    s.takeWhile isHexDigit = [] := by
  cases s with
  | nil => rfl
  | cons c t => simp [List.takeWhile, h c (List.mem_cons_self c t)]

theorem dropSign_suffix (s : List Char) : dropSign s <:+ s := by
  unfold dropSign
  split
  · exact List.suffix_cons _ _
  · exact List.suffix_cons _ _
  · exact List.suffix_refl _

theorem dropRadixPrefix_suffix (s : List Char) : dropRadixPrefix s <:+ s := by
  unfold dropRadixPrefix
  split
  · exact (List.suffix_cons _ _).trans (List.suffix_cons _ _)
  · exact (List.suffix_cons _ _).trans (List.suffix_cons _ _)
  · exact List.suffix_refl _

theorem parseInt16_noHex (s : List Char) (h : ∀ c ∈ s, isHexDigit c = false) :
    parseInt16 s = none := by
  have hsuf : dropRadixPrefix (dropSign (s.dropWhile isWhiteSpace)) <:+ s :=
    ((dropRadixPrefix_suffix _).trans (dropSign_suffix _)).trans (List.dropWhile_suffix _)
  have hz := takeWhile_noHex _ (fun c hc => h c (hsuf.subset hc))
  simp [parseInt16, hz]

theorem stripHash_subset (s : List Char) : ∀ c ∈ stripHash s, c ∈ s := by
  intro c hc
  unfold stripHash at hc
  have hc2 := (List.dropWhile_suffix isWhiteSpace).subset (List.mem_reverse.1 hc)
  rw [List.mem_reverse] at hc2
  split at hc2
  · rename_i t heq
    have hsuf : s.dropWhile isWhiteSpace <:+ s := List.dropWhile_suffix _
    rw [heq] at hsuf
    exact hsuf.subset (List.mem_cons_of_mem _ hc2)
  · exact hc2

theorem doubleChars_subset (s : List Char) : ∀ c ∈ doubleChars s, c ∈ s := by
  induction s with
  | nil => intro c hc; simp [doubleChars] at hc
  | cons a t ih =>
    intro c hc
    unfold doubleChars at hc
    split at hc
    · rcases List.mem_cons.1 hc with h | h
      · exact h ▸ List.mem_cons_self _ _
      · exact List.mem_cons_of_mem _ (ih c h)
    · rcases List.mem_cons.1 hc with h | h
      · exact h ▸ List.mem_cons_self _ _
      · rcases List.mem_cons.1 h with h | h
        · exact h ▸ List.mem_cons_self _ _
        · exact List.mem_cons_of_mem _ (ih c h)

theorem normalizeHex_subset (hex : String) : ∀ c ∈ normalizeHex hex, c ∈ hex.data := by
  intro c hc
  unfold normalizeHex at hc
  simp only at hc
  split at hc
  · exact stripHash_subset _ c (doubleChars_subset _ c hc)
  · exact stripHash_subset _ c hc

theorem parseInt16_substr_noHex (s : List Char) (start len : Nat)
    (h : ∀ c ∈ s, isHexDigit c = false) : parseInt16 (substr s start len) = none :=
  parseInt16_noHex _ (fun c hc => h c (List.mem_of_mem_drop (List.mem_of_mem_take hc)))

/-- Claim C7 as worded fails.  `brighten("zzz", 50)` and `darken("zzz", 50)`
do not fail: every channel is `NaN`, `0 | NaN` is `0`, its rendering `0` loses
its only character, and the call returns the string `#`. -/
theorem malformed_zzz_returns :
    brighten "zzz" 50 = "#" ∧ darken "zzz" 50 = "#" := by
  decide

/-- Claim C7, amended.  `brighten` and `darken` have no error path and return
a string on every input; when no character of the input is a hexadecimal digit,
as in `zzz`, both return the string `#`, whatever the percent. -/
theorem malformed_no_digit (hex : String) (percent : Int)
    (h : hex.data.all (fun c => !isHexDigit c) = true) :
    brighten hex percent = "#" ∧ darken hex percent = "#" := by
  have hn : ∀ c ∈ normalizeHex hex, isHexDigit c = false := by
    intro c hc
    have := List.all_eq_true.1 h c (normalizeHex_subset hex c hc)
    simpa using this
  constructor
  · simp only [brighten, parseInt16_substr_noHex _ _ _ hn, brightenChannel]
    decide
  · simp only [darken, parseInt16_substr_noHex _ _ _ hn, darkenChannel]
    decide

/-- Witness of `malformed_no_digit`: the input `zzz` of the claim, at `-20`
percent, and an input of the wrong length. -/
theorem malformed_no_digit_witness :
    (brighten "zzz" (-20) = "#" ∧ darken "zzz" (-20) = "#") ∧
      (brighten "#xyzzy" 10 = "#" ∧ darken "#xyzzy" 10 = "#") :=
  ⟨malformed_no_digit "zzz" (-20) (by decide), malformed_no_digit "#xyzzy" 10 (by decide)⟩

/-! ## The palette cursor -/

theorem counterAfter_succ (colorNames : List String) (h : colorNames ≠ []) (k : Nat) :
    counterAfter colorNames (k + 1) = Counter.num ((k + 1) % colorNames.length) := by
  have hlen : colorNames.length ≠ 0 := fun h0 => h (List.length_eq_zero.1 h0)
  induction k with
  | zero => simp [counterAfter, nextPaletteColorName, incrementOrReset, Counter.orZero, hlen]
  | succ k ih =>
    rw [counterAfter, ih]
    simp [nextPaletteColorName, incrementOrReset, Counter.orZero, hlen]

theorem orZero_counterAfter (colorNames : List String) (h : colorNames ≠ []) (k : Nat) :
    (counterAfter colorNames k).orZero = k % colorNames.length := by
  cases k with
  | zero => simp [counterAfter, Counter.orZero]
  | succ k => rw [counterAfter_succ colorNames h k]; rfl

theorem nthCall_eq (colorNames : List String) (h : colorNames ≠ []) (k : Nat) :
    nthCall colorNames k = colorNames[k % colorNames.length]? := by
  simp [nthCall, nextPaletteColorName, orZero_counterAfter colorNames h k]

theorem nthCall_cycle (colorNames : List String) (h : colorNames ≠ []) (base : Nat) :
    (List.range colorNames.length).map
        (fun k => nthCall colorNames (base * colorNames.length + k))
      = colorNames.map some := by
  apply List.ext_getElem?
  intro i
  by_cases hi : i < colorNames.length
  · have hmod : (base * colorNames.length + i) % colorNames.length = i := by
      rw [Nat.add_comm, Nat.add_mul_mod_self_right, Nat.mod_eq_of_lt hi]
    simp [List.getElem?_map, List.getElem?_range hi, nthCall_eq colorNames h, hmod,
      List.getElem?_eq_getElem hi]
  · have hi2 : colorNames.length ≤ i := Nat.le_of_not_lt hi
    simp [List.getElem?_eq_none, hi2]

/-- Claim C8.  Starting from the initial cursor state with a non-empty
`colorNames` of length `n`, the first call of `nextPaletteColorName` returns
`colorNames[0]`, call number `k` (counting from `0`) returns
`colorNames[k mod n]`, the first `n` calls return the names of `colorNames` in
order, each once, and the following `n` calls return the same sequence again. -/
theorem nextPaletteColorName_round_robin (colorNames : List String) (h : colorNames ≠ []) :
    nthCall colorNames 0 = some (colorNames.head h) ∧
      (∀ k, nthCall colorNames k = colorNames[k % colorNames.length]?) ∧
      (∀ k, ∃ name ∈ colorNames, nthCall colorNames k = some name) ∧
      (List.range colorNames.length).map (fun k => nthCall colorNames k)
        = colorNames.map some ∧
      (List.range colorNames.length).map
          (fun k => nthCall colorNames (colorNames.length + k))
        = colorNames.map some := by
  have hpos : 0 < colorNames.length := List.length_pos.2 h
  refine ⟨?_, nthCall_eq colorNames h, ?_, ?_, ?_⟩
  · rw [nthCall_eq colorNames h 0]
    cases colorNames with
    | nil => exact absurd rfl h
    | cons a t => simp
  · intro k
    have hk : k % colorNames.length < colorNames.length := Nat.mod_lt _ hpos
    refine ⟨colorNames[k % colorNames.length], List.getElem_mem _, ?_⟩
    rw [nthCall_eq colorNames h k, List.getElem?_eq_getElem hk]
  · have := nthCall_cycle colorNames h 0
    simpa using this
  · have := nthCall_cycle colorNames h 1
    simpa using this

/-- Witness of `nextPaletteColorName_round_robin`: a sequence of three names. -/
theorem nextPaletteColorName_round_robin_witness :
    (["red", "green", "blue"] : List String) ≠ [] ∧
      nthCall ["red", "green", "blue"] 0 = some "red" ∧
      (List.range 3).map (fun k => nthCall ["red", "green", "blue"] (3 + k))
        = [some "red", some "green", some "blue"] :=
  ⟨by decide, (nextPaletteColorName_round_robin ["red", "green", "blue"] (by decide)).1,
    (nextPaletteColorName_round_robin ["red", "green", "blue"] (by decide)).2.2.2.2⟩

/-- Claim C9 as worded fails.  On an empty name sequence the first call of
`nextPaletteColorName` raises nothing: it returns `undefined`, and it does
compute `1 % 0`, which leaves `NaN` in the counter. -/
theorem empty_palette_first_call :
    nextPaletteColorName [] Counter.undefined = (none, Counter.nan) := by
  decide

/-- Claim C9, amended.  When the name sequence is empty, `nextPaletteColorName`
fails with no error: from every counter state it returns `undefined`, no name,
and the modulo by zero is computed, leaving the counter `NaN`; this holds again
at every later call of a run from the initial state. -/
theorem empty_palette_no_error :
    (∀ counter, nextPaletteColorName [] counter = (none, Counter.nan)) ∧
      (∀ k, nthCall [] k = none ∧ counterAfter [] (k + 1) = Counter.nan) := by
  have step : ∀ counter, nextPaletteColorName [] counter = (none, Counter.nan) := by
    intro counter
    simp [nextPaletteColorName, incrementOrReset]
  refine ⟨step, fun k => ⟨?_, ?_⟩⟩
  · simp [nthCall, step]
  · simp [counterAfter, step]

/-- Claim C10.  For a non-empty `colorNames`, after any number `k ≥ 1` of calls
of `nextPaletteColorName` from the initial state, the counter is an integer
`i` with `0 ≤ i < colorNames.length`, so the next call reads the index `i`
within bounds and returns a name. -/
theorem counter_in_bounds (colorNames : List String) (k : Nat)
    (h : colorNames ≠ []) (hk : 1 ≤ k) :
    ∃ i, counterAfter colorNames k = Counter.num i ∧ i < colorNames.length ∧
      ∃ name, colorNames[i]? = some name ∧ nthCall colorNames k = some name := by
  have hpos : 0 < colorNames.length := List.length_pos.2 h
  obtain ⟨j, rfl⟩ : ∃ j, k = j + 1 := ⟨k - 1, by omega⟩
  have hlt : (j + 1) % colorNames.length < colorNames.length := Nat.mod_lt _ hpos
  refine ⟨(j + 1) % colorNames.length, counterAfter_succ colorNames h j, hlt,
    colorNames[(j + 1) % colorNames.length], List.getElem?_eq_getElem hlt, ?_⟩
  rw [nthCall_eq colorNames h (j + 1), List.getElem?_eq_getElem hlt]

/-- Witness of `counter_in_bounds`: three names, after four calls. -/
theorem counter_in_bounds_witness :
    ∃ i, counterAfter ["red", "green", "blue"] 4 = Counter.num i ∧ i < 3 ∧
      ∃ name, ["red", "green", "blue"][i]? = some name ∧
        nthCall ["red", "green", "blue"] 4 = some name :=
  counter_in_bounds ["red", "green", "blue"] 4 (by decide) (by decide)

/-! ## Further claims on the transforms, the palette and the cursor -/

/-- Claim C11.  `brighten("#000000", 50)` returns exactly `#808080`: each channel
is `0 + 256 * 50 / 100 = 128`, rendered `80`. -/
theorem brighten_black_50 : brighten "#000000" 50 = "#808080" := by
  decide

/-- Claim C14.  `colorNames` holds the keys of the active palette in the order
of the literal, each key once, a name belongs to it exactly when it is an own
key of the palette, and for the active palette `solarized` it is the sequence
of sixteen names from `background` to `green`. -/
theorem colorNames_keys :
    colorNames = palette.map Prod.fst ∧ colorNames.Nodup ∧
      (∀ key, key ∈ colorNames ↔ hasOwnProperty palette key = true) ∧
      colorNames = ["background", "background2", "base01", "base00", "base0", "base1",
        "base2", "base3", "yellow", "orange", "red", "magenta", "violet", "blue", "cyan",
        "green"] := by
  have h1 : colorNames = palette.map Prod.fst := by decide
  refine ⟨h1, by decide, ?_, by decide⟩
  intro key
  rw [h1]
  simp [hasOwnProperty, List.any_eq_true]

/-- Claim C18.  The transforms do not clamp.  `darken("#ffffff", 200)` is the
string `#`, each channel sum `256 - 255 = 1` losing its only digit, and not
`#000000`, the rendering of the channels `-255` clamped to `0`;
`brighten("#000000", 200)` wraps to `#000000` where the clamped channels give
`#ffffff`. -/
theorem transforms_do_not_clamp :
    darken "#ffffff" 200 = "#" ∧
      darken "#ffffff" 200 ≠ rgbString (clampByte (255 * (100 - 200) / 100))
        (clampByte (255 * (100 - 200) / 100)) (clampByte (255 * (100 - 200) / 100)) ∧
      rgbString (clampByte (255 * (100 - 200) / 100)) (clampByte (255 * (100 - 200) / 100))
        (clampByte (255 * (100 - 200) / 100)) = "#000000" ∧
      brighten "#000000" 200 = "#000000" ∧
      brighten "#000000" 200 ≠ rgbString (clampByte (0 + (256 - 0) * 200 / 100))
        (clampByte (0 + (256 - 0) * 200 / 100)) (clampByte (0 + (256 - 0) * 200 / 100)) := by
  decide

set_option maxRecDepth 1000000 in
theorem nextPaletteColor_all :
    ∀ i < 16, ∃ kv ∈ palette, colorNames[i]? = some kv.1 ∧ isRRGGBB kv.2 = true ∧
      nextPaletteColor (Counter.num i) = (some kv.2, Counter.num ((i + 1) % 16)) := by
  decide

/-- Claim C16.  From a cursor state with offset `i` in `[0, 16)` over the active
palette, `nextPaletteColor` returns the value stored under `colorNames[i]`, a
string of the form `#RRGGBB` and never `undefined`, and moves the counter
exactly as `nextPaletteColorName` does; the first call returns `#002b36`. -/
theorem nextPaletteColor_lookup (i : Nat) (hi : i < 16) :
    (∃ name value, colorNames[i]? = some name ∧ (name, value) ∈ palette ∧
        isRRGGBB value = true ∧ (nextPaletteColor (Counter.num i)).1 = some value) ∧
      (nextPaletteColor (Counter.num i)).1
        = getProperty palette (nextPaletteColorName colorNames (Counter.num i)).1 ∧
      (nextPaletteColor (Counter.num i)).2
        = (nextPaletteColorName colorNames (Counter.num i)).2 ∧
      (nextPaletteColor Counter.undefined).1 = some "#002b36" := by
  obtain ⟨⟨name, value⟩, h2, h1, h3, h4⟩ := nextPaletteColor_all i hi
  refine ⟨⟨name, value, h1, h2, h3, ?_⟩, rfl, rfl, by decide⟩
  rw [h4]

/-- Witness of `nextPaletteColor_lookup`: at offset `10` the name read is `red`
and the colour returned is `#dc322f`. -/
theorem nextPaletteColor_lookup_witness :
    (colorNames[10]? = some "red" ∧
        nextPaletteColor (Counter.num 10) = (some "#dc322f", Counter.num 11)) ∧
      ((∃ name value, colorNames[10]? = some name ∧ (name, value) ∈ palette ∧
          isRRGGBB value = true ∧ (nextPaletteColor (Counter.num 10)).1 = some value) ∧
        (nextPaletteColor (Counter.num 10)).1
          = getProperty palette (nextPaletteColorName colorNames (Counter.num 10)).1 ∧
        (nextPaletteColor (Counter.num 10)).2
          = (nextPaletteColorName colorNames (Counter.num 10)).2 ∧
        (nextPaletteColor Counter.undefined).1 = some "#002b36") :=
  ⟨by decide, nextPaletteColor_lookup 10 (by decide)⟩

/-- Claim C17.  The formatting trick agrees with plain zero-padded formatting:
for an integer `n` in `[0, 255]` the base 16 rendering of `256 + n` without its
first character is the two digit zero-padded lowercase hex of `n`, hence for
`r`, `g`, `b` in `[0, 255]` the helper `l(r, g, b)` returns `#` followed by the
two digit hex of `r`, of `g` and of `b`. -/
theorem legacy_format_is_hex2 (r g b : Nat) (hr : r < 256) (hg : g < 256) (hb : b < 256) :
    (toString16 (256 + (r : Int))).drop 1 = hex2 r ∧ l r g b = rgbString r g b := by
  have key : ∀ n : Nat, n < 256 →
      toInt32 (256 + (n : Int)) = 256 + (n : Int) ∧
        (toString16 (toInt32 (256 + (n : Int)))).drop 1 = hex2 n := by
    intro n hn
    refine ⟨by unfold toInt32; omega, ?_⟩
    have := render_byte (n : Int) (by omega) (by omega)
    simpa using this
  refine ⟨?_, ?_⟩
  · rw [← (key r hr).1]
    exact (key r hr).2
  · simp only [l, (key r hr).2, (key g hg).2, (key b hb).2]
    rfl

/-- Witness of `legacy_format_is_hex2`: the bytes `7`, `128` and `255`. -/
theorem legacy_format_is_hex2_witness :
    (toString16 (256 + 7)).drop 1 = ['0', '7'] ∧ l 7 128 255 = "#0780ff" :=
  legacy_format_is_hex2 7 128 255 (by decide) (by decide) (by decide)

/-! ## Range and monotonicity of the channels -/

theorem brightValue_bounds (c : Nat) (p : Int) (hc : c < 256) (h0 : 0 ≤ p) (h1 : p < 100) :
    c ≤ ((c : Int) + (256 - (c : Int)) * p / 100).toNat ∧
      ((c : Int) + (256 - (c : Int)) * p / 100).toNat ≤ 255 := by
  have hx0 : 0 ≤ (256 - (c : Int)) * p := mul_nonneg (by omega) (by omega)
  have hx1 : (256 - (c : Int)) * p ≤ (256 - (c : Int)) * 99 :=
    mul_le_mul_of_nonneg_left (by omega) (by omega)
  generalize (256 - (c : Int)) * p = x at hx0 hx1
  omega

theorem darkValue_bounds (c : Nat) (p : Int) (h0 : 0 ≤ p) (h1 : p ≤ 100) :
    ((c : Int) * (100 - p) / 100).toNat ≤ c := by
  have hx0 : 0 ≤ (c : Int) * (100 - p) := mul_nonneg (by omega) (by omega)
  have hx1 : (c : Int) * (100 - p) ≤ (c : Int) * 100 :=
    mul_le_mul_of_nonneg_left (by omega) (by omega)
  generalize (c : Int) * (100 - p) = x at hx0 hx1
  omega

theorem brightValue_mono (c : Nat) (p q : Int) (hc : c < 256) (h0 : 0 ≤ p) (hpq : p ≤ q) :
    ((c : Int) + (256 - (c : Int)) * p / 100).toNat
      ≤ ((c : Int) + (256 - (c : Int)) * q / 100).toNat := by
  have hx0 : 0 ≤ (256 - (c : Int)) * p := mul_nonneg (by omega) (by omega)
  have hx1 : (256 - (c : Int)) * p ≤ (256 - (c : Int)) * q :=
    mul_le_mul_of_nonneg_left hpq (by omega)
  generalize (256 - (c : Int)) * p = x at hx0 hx1
  generalize (256 - (c : Int)) * q = y at hx1
  omega

theorem darkValue_mono (c : Nat) (p q : Int) (hpq : p ≤ q) (h1 : q ≤ 100) :
    ((c : Int) * (100 - q) / 100).toNat ≤ ((c : Int) * (100 - p) / 100).toNat := by
  have hy0 : 0 ≤ (c : Int) * (100 - q) := mul_nonneg (by omega) (by omega)
  have hx1 : (c : Int) * (100 - q) ≤ (c : Int) * (100 - p) :=
    mul_le_mul_of_nonneg_left (by omega) (by omega)
  generalize (c : Int) * (100 - p) = x at hx1
  generalize (c : Int) * (100 - q) = y at hy0 hx1
  omega

/-- Claim C19.  For a six digit hex colour with channels `r`, `g`, `b`, an
integer `p` with `0 ≤ p < 100` and an integer `q` with `0 ≤ q ≤ 100`: every
channel `c'` of `brighten(hex, p)` satisfies `c ≤ c' ≤ 255`, and every channel
`c''` of `darken(hex, q)` satisfies `0 ≤ c'' ≤ c`. -/
theorem channel_range (hash : Bool) (d1 d2 d3 d4 d5 d6 : Char) (p q : Int)
    (hd : allHex [d1, d2, d3, d4, d5, d6] = true)
    (hp0 : 0 ≤ p) (hp1 : p < 100) (hq0 : 0 ≤ q) (hq1 : q ≤ 100) :
    (∃ r g b : Nat, brighten (hexString hash [d1, d2, d3, d4, d5, d6]) p = rgbString r g b ∧
        (channel d1 d2 ≤ r ∧ r ≤ 255) ∧ (channel d3 d4 ≤ g ∧ g ≤ 255) ∧
        (channel d5 d6 ≤ b ∧ b ≤ 255)) ∧
      (∃ r g b : Nat, darken (hexString hash [d1, d2, d3, d4, d5, d6]) q = rgbString r g b ∧
        (0 ≤ r ∧ r ≤ channel d1 d2) ∧ (0 ≤ g ∧ g ≤ channel d3 d4) ∧
        (0 ≤ b ∧ b ≤ channel d5 d6)) := by
  have hb := brighten_six_values hash d1 d2 d3 d4 d5 d6 p hd hp0 hp1
  have hk := darken_six_values hash d1 d2 d3 d4 d5 d6 q hd hq0 hq1
  simp only [allHex, List.all_cons, List.all_nil, Bool.and_true, Bool.and_eq_true] at hd
  obtain ⟨g1, g2, g3, g4, g5, g6⟩ := hd
  refine ⟨⟨_, _, _, hb, brightValue_bounds _ p (channel_lt g1 g2) hp0 hp1,
      brightValue_bounds _ p (channel_lt g3 g4) hp0 hp1,
      brightValue_bounds _ p (channel_lt g5 g6) hp0 hp1⟩,
    ⟨_, _, _, hk, ⟨Nat.zero_le _, darkValue_bounds _ q hq0 hq1⟩,
      ⟨Nat.zero_le _, darkValue_bounds _ q hq0 hq1⟩,
      ⟨Nat.zero_le _, darkValue_bounds _ q hq0 hq1⟩⟩⟩

/-- Witness of `channel_range`: `#268bd2` brightened by `99` percent and
darkened by `100` percent. -/
theorem channel_range_witness :
    (∃ r g b : Nat, brighten "#268bd2" 99 = rgbString r g b ∧
        (channel '2' '6' ≤ r ∧ r ≤ 255) ∧ (channel '8' 'b' ≤ g ∧ g ≤ 255) ∧
        (channel 'd' '2' ≤ b ∧ b ≤ 255)) ∧
      (∃ r g b : Nat, darken "#268bd2" 100 = rgbString r g b ∧
        (0 ≤ r ∧ r ≤ channel '2' '6') ∧ (0 ≤ g ∧ g ≤ channel '8' 'b') ∧
        (0 ≤ b ∧ b ≤ channel 'd' '2')) :=
  channel_range true '2' '6' '8' 'b' 'd' '2' 99 100 (by decide) (by decide) (by decide)
    (by decide) (by decide)

/-- Claim C20.  The transforms are monotone in the percent.  For a six digit hex
colour and integers `p ≤ q` with `0 ≤ p` and `q < 100`, each channel of
`brighten(hex, p)` is at most the same channel of `brighten(hex, q)`; for
integers `s ≤ t` within `[0, 100]`, each channel of `darken(hex, s)` is at
least the same channel of `darken(hex, t)`. -/
theorem percent_monotone (hash : Bool) (d1 d2 d3 d4 d5 d6 : Char) (p q s t : Int)
    (hd : allHex [d1, d2, d3, d4, d5, d6] = true)
    (hp0 : 0 ≤ p) (hpq : p ≤ q) (hq1 : q < 100)
    (hs0 : 0 ≤ s) (hst : s ≤ t) (ht1 : t ≤ 100) :
    (∃ r g b r' g' b' : Nat,
        brighten (hexString hash [d1, d2, d3, d4, d5, d6]) p = rgbString r g b ∧
        brighten (hexString hash [d1, d2, d3, d4, d5, d6]) q = rgbString r' g' b' ∧
        (r ≤ r' ∧ r' ≤ 255) ∧ (g ≤ g' ∧ g' ≤ 255) ∧ (b ≤ b' ∧ b' ≤ 255)) ∧
      (∃ r g b r' g' b' : Nat,
        darken (hexString hash [d1, d2, d3, d4, d5, d6]) s = rgbString r g b ∧
        darken (hexString hash [d1, d2, d3, d4, d5, d6]) t = rgbString r' g' b' ∧
        (r' ≤ r ∧ r ≤ 255) ∧ (g' ≤ g ∧ g ≤ 255) ∧ (b' ≤ b ∧ b ≤ 255)) := by
  have hbp := brighten_six_values hash d1 d2 d3 d4 d5 d6 p hd hp0 (by omega)
  have hbq := brighten_six_values hash d1 d2 d3 d4 d5 d6 q hd (by omega) hq1
  have hks := darken_six_values hash d1 d2 d3 d4 d5 d6 s hd hs0 (by omega)
  have hkt := darken_six_values hash d1 d2 d3 d4 d5 d6 t hd (by omega) ht1
  simp only [allHex, List.all_cons, List.all_nil, Bool.and_true, Bool.and_eq_true] at hd
  obtain ⟨g1, g2, g3, g4, g5, g6⟩ := hd
  have c1 := channel_lt g1 g2
  have c2 := channel_lt g3 g4
  have c3 := channel_lt g5 g6
  have hq0 : 0 ≤ q := by omega
  have hs1 : s ≤ 100 := by omega
  refine ⟨⟨_, _, _, _, _, _, hbp, hbq,
      ⟨brightValue_mono _ p q c1 hp0 hpq, (brightValue_bounds _ q c1 hq0 hq1).2⟩,
      ⟨brightValue_mono _ p q c2 hp0 hpq, (brightValue_bounds _ q c2 hq0 hq1).2⟩,
      ⟨brightValue_mono _ p q c3 hp0 hpq, (brightValue_bounds _ q c3 hq0 hq1).2⟩⟩,
    ⟨_, _, _, _, _, _, hks, hkt,
      ⟨darkValue_mono _ s t hst ht1, ?_⟩, ⟨darkValue_mono _ s t hst ht1, ?_⟩,
      ⟨darkValue_mono _ s t hst ht1, ?_⟩⟩⟩
  · have := darkValue_bounds (channel d1 d2) s hs0 hs1
    omega
  · have := darkValue_bounds (channel d3 d4) s hs0 hs1
    omega
  · have := darkValue_bounds (channel d5 d6) s hs0 hs1
    omega

/-- Witness of `percent_monotone`: `#268bd2` brightened by `10` and `90` percent
and darkened by `0` and `100` percent. -/
theorem percent_monotone_witness :
    (∃ r g b r' g' b' : Nat,
        brighten "#268bd2" 10 = rgbString r g b ∧ brighten "#268bd2" 90 = rgbString r' g' b' ∧
        (r ≤ r' ∧ r' ≤ 255) ∧ (g ≤ g' ∧ g' ≤ 255) ∧ (b ≤ b' ∧ b' ≤ 255)) ∧
      (∃ r g b r' g' b' : Nat,
        darken "#268bd2" 0 = rgbString r g b ∧ darken "#268bd2" 100 = rgbString r' g' b' ∧
        (r' ≤ r ∧ r ≤ 255) ∧ (g' ≤ g ∧ g ≤ 255) ∧ (b' ≤ b ∧ b ≤ 255)) :=
  percent_monotone true '2' '6' '8' 'b' 'd' '2' 10 90 0 100 (by decide) (by decide)
    (by decide) (by decide) (by decide) (by decide) (by decide)

/-! ## Shape of the output -/

set_option maxRecDepth 1000000 in
theorem hex2_lower_all : ∀ n < 256, ∀ c ∈ hex2 n, c ∈ lowerHexDigits := by
  decide

theorem brightenChannel_le (c : Nat) (p : Int) (hc : c < 256) (h0 : 0 ≤ p) (h1 : p ≤ 100) :
    ∃ v : Nat, v < 256 ∧ brightenChannel (some (c : Int)) p = hex2 v := by
  by_cases hp : p < 100
  · exact ⟨_, Nat.lt_succ_of_le (brightValue_bounds c p hc h0 hp).2,
      brightenChannel_byte c p hc h0 hp⟩
  · have hp100 : p = 100 := by omega
    subst hp100
    refine ⟨0, by decide, ?_⟩
    have h512 : truncSum (256 + (c : Int)) ((256 - (c : Int)) * 100) = 512 := by
      rw [truncSum_nonneg _ _ (by omega) (by omega)]
      unfold toInt32
      omega
    simp only [brightenChannel, h512]
    decide

theorem darkenChannel_le (c : Nat) (p : Int) (hc : c < 256) (h0 : 0 ≤ p) (h1 : p ≤ 100) :
    ∃ v : Nat, v < 256 ∧ darkenChannel (some (c : Int)) p = hex2 v :=
  ⟨_, Nat.lt_of_le_of_lt (darkValue_bounds c p h0 h1) hc, darkenChannel_byte c p hc h0 h1⟩

theorem output_format_six (hash : Bool) (d1 d2 d3 d4 d5 d6 : Char) (p : Int)
    (hd : allHex [d1, d2, d3, d4, d5, d6] = true) (h0 : 0 ≤ p) (h1 : p ≤ 100) :
    (∃ r g b : Nat, (r < 256 ∧ g < 256 ∧ b < 256) ∧
        brighten (hexString hash [d1, d2, d3, d4, d5, d6]) p = rgbString r g b) ∧
      (∃ r g b : Nat, (r < 256 ∧ g < 256 ∧ b < 256) ∧
        darken (hexString hash [d1, d2, d3, d4, d5, d6]) p = rgbString r g b) := by
  have hb := brighten_six hash d1 d2 d3 d4 d5 d6 p hd
  have hk := darken_six hash d1 d2 d3 d4 d5 d6 p hd
  simp only [allHex, List.all_cons, List.all_nil, Bool.and_true, Bool.and_eq_true] at hd
  obtain ⟨g1, g2, g3, g4, g5, g6⟩ := hd
  obtain ⟨r, hr, er⟩ := brightenChannel_le _ p (channel_lt g1 g2) h0 h1
  obtain ⟨g, hg, eg⟩ := brightenChannel_le _ p (channel_lt g3 g4) h0 h1
  obtain ⟨b, hb', eb⟩ := brightenChannel_le _ p (channel_lt g5 g6) h0 h1
  obtain ⟨r', hr', er'⟩ := darkenChannel_le _ p (channel_lt g1 g2) h0 h1
  obtain ⟨g', hg', eg'⟩ := darkenChannel_le _ p (channel_lt g3 g4) h0 h1
  obtain ⟨b', hb'', eb'⟩ := darkenChannel_le _ p (channel_lt g5 g6) h0 h1
  refine ⟨⟨r, g, b, ⟨hr, hg, hb'⟩, ?_⟩, ⟨r', g', b', ⟨hr', hg', hb''⟩, ?_⟩⟩
  · rw [hb, er, eg, eb]; rfl
  · rw [hk, er', eg', eb']; rfl

theorem rgbString_shape (r g b : Nat) (hr : r < 256) (hg : g < 256) (hb : b < 256) :
    (rgbString r g b).length = 7 ∧ (rgbString r g b).data.head? = some '#' ∧
      ∀ c ∈ (rgbString r g b).data.drop 1, c ∈ lowerHexDigits := by
  refine ⟨rfl, rfl, ?_⟩
  intro c hc
  simp only [rgbString, List.drop_succ_cons, List.drop_zero, List.mem_append] at hc
  rcases hc with (hc | hc) | hc
  · exact hex2_lower_all r hr c hc
  · exact hex2_lower_all g hg c hc
  · exact hex2_lower_all b hb c hc

/-- Claim C12.  For every hex colour of three or six hexadecimal digits, with or
without the leading `#`, and every integer percent in `[0, 100]`, the results
of `brighten` and of `darken` are `#` followed by the zero-padded two digit
lowercase hex of three values below `256`: strings of exactly seven
characters, lowercase hexadecimal digits after the `#`. -/
theorem output_format (hash : Bool) (ds : List Char) (percent : Int)
    (hlen : ds.length = 3 ∨ ds.length = 6) (hd : allHex ds = true)
    (h0 : 0 ≤ percent) (h1 : percent ≤ 100) :
    (∃ r g b : Nat, (r < 256 ∧ g < 256 ∧ b < 256) ∧
        brighten (hexString hash ds) percent = rgbString r g b) ∧
      (∃ r g b : Nat, (r < 256 ∧ g < 256 ∧ b < 256) ∧
        darken (hexString hash ds) percent = rgbString r g b) ∧
      (brighten (hexString hash ds) percent).length = 7 ∧
      (darken (hexString hash ds) percent).length = 7 ∧
      (∀ c ∈ (brighten (hexString hash ds) percent).data.drop 1, c ∈ lowerHexDigits) ∧
      (∀ c ∈ (darken (hexString hash ds) percent).data.drop 1, c ∈ lowerHexDigits) := by
  have key : (∃ r g b : Nat, (r < 256 ∧ g < 256 ∧ b < 256) ∧
        brighten (hexString hash ds) percent = rgbString r g b) ∧
      (∃ r g b : Nat, (r < 256 ∧ g < 256 ∧ b < 256) ∧
        darken (hexString hash ds) percent = rgbString r g b) := by
    rcases hlen with h3 | h6
    · match ds, h3 with
      | [e1, e2, e3], _ =>
        rw [brighten_three hash hash e1 e2 e3 percent hd,
          darken_three hash hash e1 e2 e3 percent hd]
        exact output_format_six hash _ _ _ _ _ _ percent (allHex_double hd) h0 h1
    · match ds, h6 with
      | [e1, e2, e3, e4, e5, e6], _ =>
        exact output_format_six hash _ _ _ _ _ _ percent hd h0 h1
  obtain ⟨⟨r, g, b, ⟨hr, hg, hb⟩, eb⟩, ⟨r', g', b', ⟨hr', hg', hb'⟩, ek⟩⟩ := key
  refine ⟨⟨r, g, b, ⟨hr, hg, hb⟩, eb⟩, ⟨r', g', b', ⟨hr', hg', hb'⟩, ek⟩, ?_, ?_, ?_, ?_⟩
  · rw [eb]; exact (rgbString_shape r g b hr hg hb).1
  · rw [ek]; exact (rgbString_shape r' g' b' hr' hg' hb').1
  · rw [eb]; exact (rgbString_shape r g b hr hg hb).2.2
  · rw [ek]; exact (rgbString_shape r' g' b' hr' hg' hb').2.2

/-- Witness of `output_format`: the three digit colour `#E0F` at `100` percent
and its results. -/
theorem output_format_witness :
    brighten "#E0F" 100 = "#000000" ∧ darken "#E0F" 100 = "#000000" ∧
      (brighten "#E0F" 100).length = 7 ∧ (darken "#E0F" 100).length = 7 :=
  ⟨by decide, by decide,
    (output_format true ['E', '0', 'F'] 100 (Or.inl (by decide)) (by decide) (by decide)
      (by decide)).2.2.1,
    (output_format true ['E', '0', 'F'] 100 (Or.inl (by decide)) (by decide) (by decide)
      (by decide)).2.2.2.1⟩

/-- Claim C13, evaluated on the source.  White space in front of the digits is
removed only when a `#` follows it: `" ffffff"` keeps its blank, so the channels
are read from `" f"`, `"ff"`, `"ff"` and the result at `0` percent is `#0fffff`,
not the `#ffffff` of `"ffffff"`; `" f00"` keeps four characters, is not doubled
and gives `#0f00`.  With the `#`, or with white space only at the end, the
result is that of the bare digits. -/
theorem leading_space_without_hash :
    (brighten " ffffff" 0 = "#0fffff" ∧ brighten "ffffff" 0 = "#ffffff") ∧
      (darken " ffffff" 0 = "#0fffff" ∧ darken "ffffff" 0 = "#ffffff") ∧
      (darken " f00" 0 = "#0f00" ∧ darken "f00" 0 = "#ff0000") ∧
      (brighten " #ffffff " 0 = "#ffffff" ∧ brighten "ffffff " 0 = "#ffffff") := by
  decide

/-! ## Letter case -/

theorem digitChar_lower : ∀ m < 16, Nat.digitChar m ∈ lowerHexDigits := by
  decide

theorem toDigitsCore_lower (fuel : Nat) :
    ∀ (n : Nat) (ds : List Char), (∀ c ∈ ds, c ∈ lowerHexDigits) →
      ∀ c ∈ Nat.toDigitsCore 16 fuel n ds, c ∈ lowerHexDigits := by
  induction fuel with
  | zero => intro n ds h c hc; exact h c (by simpa [Nat.toDigitsCore] using hc)
  | succ fuel ih =>
    intro n ds h c hc
    have hcons : ∀ c ∈ Nat.digitChar (n % 16) :: ds, c ∈ lowerHexDigits := by
      intro c hc
      rcases List.mem_cons.1 hc with h1 | h1
      · exact h1 ▸ digitChar_lower _ (Nat.mod_lt _ (by decide))
      · exact h c h1
    simp only [Nat.toDigitsCore] at hc
    split at hc
    · exact hcons c hc
    · exact ih _ _ hcons c hc

theorem toString16_drop_lower (n : Int) :
    ∀ c ∈ (toString16 n).drop 1, c ∈ lowerHexDigits := by
  have hd : ∀ m : Nat, ∀ c ∈ Nat.toDigits 16 m, c ∈ lowerHexDigits := fun m =>
    toDigitsCore_lower _ _ [] (fun c hc => absurd hc (List.not_mem_nil c))
  intro c hc
  unfold toString16 at hc
  split at hc
  · exact hd _ c (by simpa using hc)
  · exact hd _ c (List.mem_of_mem_drop hc)

theorem brightenChannel_lower (v : Option Int) (p : Int) :
    ∀ c ∈ brightenChannel v p, c ∈ lowerHexDigits := by
  cases v <;> exact toString16_drop_lower _

theorem darkenChannel_lower (v : Option Int) (p : Int) :
    ∀ c ∈ darkenChannel v p, c ∈ lowerHexDigits := by
  cases v <;> exact toString16_drop_lower _

/-- After the `#`, the result of `brighten` and of `darken` holds lowercase
hexadecimal digits only, on every input. -/
theorem output_lower (hex : String) (p : Int) :
    (∀ c ∈ (brighten hex p).data.drop 1, c ∈ lowerHexDigits) ∧
      (∀ c ∈ (darken hex p).data.drop 1, c ∈ lowerHexDigits) := by
  constructor
  · intro c hc
    simp only [brighten, List.drop_succ_cons, List.drop_zero, List.mem_append] at hc
    rcases hc with (hc | hc) | hc <;> exact brightenChannel_lower _ _ c hc
  · intro c hc
    simp only [darken, List.drop_succ_cons, List.drop_zero, List.mem_append] at hc
    rcases hc with (hc | hc) | hc <;> exact darkenChannel_lower _ _ c hc

theorem hexDigits_case :
    ∀ d ∈ hexDigits, isHexDigit d.toUpper = true ∧ isHexDigit d.toLower = true ∧
      hexDigitVal d.toUpper = hexDigitVal d ∧ hexDigitVal d.toLower = hexDigitVal d := by
  decide

theorem channel_case {d1 d2 : Char} (h1 : isHexDigit d1 = true) (h2 : isHexDigit d2 = true) :
    channel d1.toUpper d2.toUpper = channel d1 d2 ∧
      channel d1.toLower d2.toLower = channel d1 d2 := by
  have a := hexDigits_case d1 (mem_hexDigits h1)
  have b := hexDigits_case d2 (mem_hexDigits h2)
  simp only [channel, a.2.2.1, a.2.2.2, b.2.2.1, b.2.2.2, and_self]

theorem allHex_map_case (ds : List Char) (hd : allHex ds = true) :
    allHex (ds.map Char.toUpper) = true ∧ allHex (ds.map Char.toLower) = true := by
  simp only [allHex, List.all_eq_true, List.mem_map] at hd ⊢
  constructor
  · rintro c ⟨d, hd1, rfl⟩
    exact (hexDigits_case d (mem_hexDigits (hd d hd1))).1
  · rintro c ⟨d, hd1, rfl⟩
    exact (hexDigits_case d (mem_hexDigits (hd d hd1))).2.1

theorem case_six (hash : Bool) (d1 d2 d3 d4 d5 d6 : Char) (p : Int)
    (hd : allHex [d1, d2, d3, d4, d5, d6] = true) :
    (brighten (hexString hash ([d1, d2, d3, d4, d5, d6].map Char.toUpper)) p
        = brighten (hexString hash [d1, d2, d3, d4, d5, d6]) p ∧
      brighten (hexString hash ([d1, d2, d3, d4, d5, d6].map Char.toLower)) p
        = brighten (hexString hash [d1, d2, d3, d4, d5, d6]) p) ∧
      (darken (hexString hash ([d1, d2, d3, d4, d5, d6].map Char.toUpper)) p
        = darken (hexString hash [d1, d2, d3, d4, d5, d6]) p ∧
      darken (hexString hash ([d1, d2, d3, d4, d5, d6].map Char.toLower)) p
        = darken (hexString hash [d1, d2, d3, d4, d5, d6]) p) := by
  have hu := (allHex_map_case _ hd).1
  have hl := (allHex_map_case _ hd).2
  simp only [List.map_cons, List.map_nil] at hu hl ⊢
  rw [brighten_six hash _ _ _ _ _ _ p hu, brighten_six hash _ _ _ _ _ _ p hl,
    brighten_six hash _ _ _ _ _ _ p hd, darken_six hash _ _ _ _ _ _ p hu,
    darken_six hash _ _ _ _ _ _ p hl, darken_six hash _ _ _ _ _ _ p hd]
  simp only [allHex, List.all_cons, List.all_nil, Bool.and_true, Bool.and_eq_true] at hd
  obtain ⟨g1, g2, g3, g4, g5, g6⟩ := hd
  simp only [(channel_case g1 g2).1, (channel_case g1 g2).2, (channel_case g3 g4).1,
    (channel_case g3 g4).2, (channel_case g5 g6).1, (channel_case g5 g6).2, and_self]

/-- Claim C15.  `brighten` and `darken` do not depend on the case of the hex
digits: for every hex colour of three or six hexadecimal digits, with or without
the leading `#`, and every percent, the uppercase and the lowercase spelling
give the same result, and that result holds lowercase hexadecimal digits only
after its `#`. -/
theorem case_insensitive (hash : Bool) (ds : List Char) (percent : Int)
    (hlen : ds.length = 3 ∨ ds.length = 6) (hd : allHex ds = true) :
    brighten (hexString hash (ds.map Char.toUpper)) percent
        = brighten (hexString hash (ds.map Char.toLower)) percent ∧
      darken (hexString hash (ds.map Char.toUpper)) percent
        = darken (hexString hash (ds.map Char.toLower)) percent ∧
      (∀ c ∈ (brighten (hexString hash (ds.map Char.toUpper)) percent).data.drop 1,
        c ∈ lowerHexDigits) ∧
      (∀ c ∈ (darken (hexString hash (ds.map Char.toUpper)) percent).data.drop 1,
        c ∈ lowerHexDigits) := by
  refine ⟨?_, ?_, (output_lower _ percent).1, (output_lower _ percent).2⟩
  · rcases hlen with h3 | h6
    · match ds, h3 with
      | [e1, e2, e3], _ =>
        have hu := (allHex_map_case _ hd).1
        have hl := (allHex_map_case _ hd).2
        simp only [List.map_cons, List.map_nil] at hu hl ⊢
        rw [brighten_three hash hash _ _ _ percent hu, brighten_three hash hash _ _ _ percent hl]
        have := (case_six hash e1 e1 e2 e2 e3 e3 percent (allHex_double hd)).1
        simp only [List.map_cons, List.map_nil] at this
        exact this.1.trans this.2.symm
    · match ds, h6 with
      | [e1, e2, e3, e4, e5, e6], _ =>
        have := (case_six hash e1 e2 e3 e4 e5 e6 percent hd).1
        exact this.1.trans this.2.symm
  · rcases hlen with h3 | h6
    · match ds, h3 with
      | [e1, e2, e3], _ =>
        have hu := (allHex_map_case _ hd).1
        have hl := (allHex_map_case _ hd).2
        simp only [List.map_cons, List.map_nil] at hu hl ⊢
        rw [darken_three hash hash _ _ _ percent hu, darken_three hash hash _ _ _ percent hl]
        have := (case_six hash e1 e1 e2 e2 e3 e3 percent (allHex_double hd)).2
        simp only [List.map_cons, List.map_nil] at this
        exact this.1.trans this.2.symm
    · match ds, h6 with
      | [e1, e2, e3, e4, e5, e6], _ =>
        have := (case_six hash e1 e2 e3 e4 e5 e6 percent hd).2
        exact this.1.trans this.2.symm

/-- Witness of `case_insensitive`: `#AbCdEf` at `-30` percent, spelled
`#ABCDEF` and `#abcdef`. -/
theorem case_insensitive_witness :
    brighten "#ABCDEF" (-30) = brighten "#abcdef" (-30) ∧
      darken "#ABCDEF" (-30) = darken "#abcdef" (-30) :=
  ⟨(case_insensitive true ['A', 'b', 'C', 'd', 'E', 'f'] (-30) (Or.inr (by decide))
      (by decide)).1,
    (case_insensitive true ['A', 'b', 'C', 'd', 'E', 'f'] (-30) (Or.inr (by decide))
      (by decide)).2.1⟩

end Colors
